import Mathlib

/-!
Verification of the Markdown → Portable Text converter of the noveli-prg-seo
repository (functions `processBoldAndEmphasis`, `markdownToPortableText`,
`createSlug`, `generateKey` of the publishing module).

Strings are embedded as `List Char`.  JavaScript's `Math.random()`-driven key
generation is embedded by passing an explicit stream of keys (`ks : Nat →
String`): the `n`-th call of `generateKey()` inside one conversion returns
`ks n`.
-/

set_option maxHeartbeats 1000000

namespace Noveli

/-- The JavaScript whitespace set used by `String.prototype.trim` and by the
regex class `\s` (ASCII whitespace, NBSP, ogham space, the Unicode space
range, line/paragraph separators, narrow/medium spaces, ideographic space,
BOM). -/
def isJsWs (c : Char) : Bool :=
  c = ' ' || c = '\t' || c = '\n' || c = '\r' ||
  c.toNat = 11 || c.toNat = 12 || c.toNat = 0xa0 || c.toNat = 0x1680 ||
  (0x2000 ≤ c.toNat && c.toNat ≤ 0x200a) || c.toNat = 0x2028 || c.toNat = 0x2029 ||
  c.toNat = 0x202f || c.toNat = 0x205f || c.toNat = 0x3000 || c.toNat = 0xfeff

/-- `String.prototype.trim`: remove leading and trailing whitespace. -/
def jsTrim (l : List Char) : List Char :=
  ((l.dropWhile isJsWs).reverse.dropWhile isJsWs).reverse

/-- One Portable Text span: `{ _type: 'span', text, marks }`.  The degenerate
placeholder span produced for empty input carries no `marks` field at all,
embedded as `marks = none`. -/
structure PortableTextSpan where
  text : List Char
  marks : Option (List String)
deriving DecidableEq, Repr

/-- One Portable Text block: `{ _type: 'block', _key, style, listItem?, level?,
children }`. -/
structure PortableTextBlock where
  key : String
  style : String
  listItem : Option String
  level : Option Nat
  children : List PortableTextSpan
deriving DecidableEq, Repr

/-- The marks array built at flush time:
`[...(isBold ? ['strong'] : []), ...(isItalic ? ['em'] : [])]`. -/
def spanMarks (isBold isItalic : Bool) : List String :=
  (if isBold then ["strong"] else []) ++ (if isItalic then ["em"] else [])

/-- The span pushed by `segments.push({_type:'span', text, marks})`. -/
def mkSpan (buf : List Char) (isBold isItalic : Bool) : PortableTextSpan :=
  { text := buf, marks := some (spanMarks isBold isItalic) }

/-- The flush step: push the accumulated text as a span only when the buffer
is non-empty (`if (currentText) { segments.push(...) }`). -/
def flushBuf (buf : List Char) (isBold isItalic : Bool) : List PortableTextSpan :=
  if buf.isEmpty then [] else [mkSpan buf isBold isItalic]

/-- The character loop of `processBoldAndEmphasis`.  `prevStar` records
whether the character at position `i-1` of the original string was `'*'`
(the loop inspects `text[i-1]` for the lone-asterisk test; at the start of
the string it is treated as not-a-star). -/
def pbeGo (prevStar isBold isItalic : Bool) (buf : List Char) :
    List Char → List PortableTextSpan
  | [] => flushBuf buf isBold isItalic
  | '*' :: '*' :: rest =>
      flushBuf buf isBold isItalic ++ pbeGo true (!isBold) isItalic [] rest
  | '*' :: rest =>
      -- here `rest` does not start with '*', so the character after the
      -- current one is not '*' (or the string ends); the lone-asterisk test
      -- additionally requires the previous character not to be '*'
      if prevStar then pbeGo true isBold isItalic (buf ++ ['*']) rest
      else flushBuf buf isBold isItalic ++ pbeGo true isBold (!isItalic) [] rest
  | c :: rest =>
      -- c ≠ '*' by the previous patterns
      pbeGo false isBold isItalic (buf ++ [c]) rest

/-- `processBoldAndEmphasis`: scan the text into styled spans; if no span was
produced, return the single empty placeholder span (which has no marks
field). -/
def processBoldAndEmphasis (text : List Char) : List PortableTextSpan :=
  let segments := pbeGo false false false [] text
  if segments.length > 0 then segments else [{ text := [], marks := none }]

/-- Concatenation of the `text` of a span sequence, in order. -/
def spansText (ss : List PortableTextSpan) : List Char :=
  (ss.map PortableTextSpan.text).flatten

/-- The alphabet of `generateKey`:
`'abcdefghijklmnopqrstuvwxyzABCDEFGHIJKLMNOPQRSTUVWXYZ0123456789'`. -/
def keyChars : List Char :=
  "abcdefghijklmnopqrstuvwxyzABCDEFGHIJKLMNOPQRSTUVWXYZ0123456789".toList

/-- `generateKey(length)`: one character per loop iteration, chosen by the
`i`-th random draw (`rand i` models `Math.floor(Math.random() * chars.length)`,
reduced into range). -/
def generateKey (rand : Nat → Nat) (length : Nat) : List Char :=
  (List.range length).map (fun i => keyChars.getD (rand i % keyChars.length) 'a')

/-! ### Preprocessor -/

/-- Scan for the closing `**` of the non-greedy group `(.*?)` in the regex
`\*\*H([1-6]):(.*?)\*\*`: the nearest following `**`; `.` does not match a
newline, so the attempt fails if a `'\n'` occurs first.  Returns the group
content and the remainder after the closing `**`. -/
def findClose : List Char → Option (List Char × List Char)
  | '*' :: '*' :: rest => some ([], rest)
  | '\n' :: _ => none
  | c :: rest => (findClose rest).map (fun pr => (c :: pr.1, pr.2))
  | [] => none

/-- Try to match `\*\*H([1-6]):(.*?)\*\*` at the current position; on success
return the level digit, the group content, and the remainder. -/
def tryPH : List Char → Option (Char × List Char × List Char)
  | '*' :: '*' :: 'H' :: d :: ':' :: rest =>
      if '1' ≤ d && d ≤ '6' then
        (findClose rest).map (fun pr => (d, pr.1, pr.2))
      else none
  | _ => none

/-- Left-to-right global replacement of the bold-wrapped pseudo-heading
pattern by `` `\n\nH${level}:${content}\n\n` ``; on a failed match the scan
advances one character.  Fuel-indexed (each step consumes at least one input
character, so `input.length` fuel suffices). -/
def rewritePHGo : Nat → List Char → List Char
  | 0, l => l
  | _ + 1, [] => []
  | fuel + 1, c :: rest =>
      match tryPH (c :: rest) with
      | some (d, content, rest2) =>
          '\n' :: '\n' :: 'H' :: d :: ':' ::
            (content ++ '\n' :: '\n' :: rewritePHGo fuel rest2)
      | none => c :: rewritePHGo fuel rest

/-- `.replace(/\n{3,}/g, '\n\n')`: cap every run of consecutive newlines at
two.  `k` counts the newlines already emitted in the current run. -/
def collapseNLGo : Nat → List Char → List Char
  | _, [] => []
  | k, '\n' :: rest =>
      if k < 2 then '\n' :: collapseNLGo (k + 1) rest else collapseNLGo k rest
  | _, c :: rest => c :: collapseNLGo 0 rest

/-- The `cleanedMarkdown` value of `markdownToPortableText`: pseudo-heading
rewrite, then newline collapsing. -/
def cleanedMarkdown (s : List Char) : List Char :=
  collapseNLGo 0 (rewritePHGo s.length s)

/-! ### Block segmenter -/

/-- `.split('\n\n')`: split on the first-found occurrence of two consecutive
newlines, left to right, non-overlapping. -/
def splitOnNN : List Char → List (List Char)
  | [] => [[]]
  | '\n' :: '\n' :: rest => [] :: splitOnNN rest
  | c :: rest =>
      match splitOnNN rest with
      | [] => [[c]]
      | p :: ps => (c :: p) :: ps

/-- `String.prototype.replace` with a plain-string pattern and empty
replacement: remove the first occurrence of `pat` (leave the string unchanged
when `pat` does not occur). -/
def replaceFirstL (pat : List Char) : List Char → List Char
  | [] => []
  | c :: rest =>
      if pat.isPrefixOf (c :: rest) then (c :: rest).drop pat.length
      else c :: replaceFirstL pat rest

/-- `paragraph.match(/^H<d>:/i)`: first char `H` or `h`, then the digit `d`,
then `:`. -/
def matchPH (d : Char) (l : List Char) : Bool :=
  match l with
  | c1 :: c2 :: c3 :: _ => (c1 == 'H' || c1 == 'h') && c2 == d && c3 == ':'
  | _ => false

/-- `paragraph.replace(/^>|^&gt;/g, '')`: remove one leading `>` (tried
first) or one leading `&gt;`; `^` only matches at the start, so at most one
removal happens. -/
def dropQuoteMark (l : List Char) : List Char :=
  if l.headI = '>' ∧ l ≠ [] then l.drop 1
  else if ("&gt;".toList).isPrefixOf l then l.drop 4
  else l

/-- `/^[\s]*[-*]\s/.test(line)`: optional leading whitespace, a `-` or `*`
marker, then one whitespace character. -/
def bulletTest (l : List Char) : Bool :=
  match l.dropWhile isJsWs with
  | m :: s :: _ => (m == '-' || m == '*') && isJsWs s
  | _ => false

/-- `item.replace(/^[\s]*[-*]\s+/, '')`: strip leading whitespace, the
marker, and all following whitespace (greedy `\s+`); unchanged when the
pattern does not match. -/
def stripBullet (l : List Char) : List Char :=
  match l.dropWhile isJsWs with
  | m :: s :: rest =>
      if (m == '-' || m == '*') && isJsWs s then (s :: rest).dropWhile isJsWs
      else l
  | _ => l

/-- `/^[\s]*\d+\.\s/.test(line)`: optional leading whitespace, one or more
digits, a dot, then one whitespace character. -/
def numTest (l : List Char) : Bool :=
  let l1 := l.dropWhile isJsWs
  let ds := l1.takeWhile Char.isDigit
  !ds.isEmpty &&
    match l1.drop ds.length with
    | '.' :: s :: _ => isJsWs s
    | _ => false

/-- `item.replace(/^[\s]*\d+\.\s+/, '')`. -/
def stripNum (l : List Char) : List Char :=
  if numTest l then
    let l1 := l.dropWhile isJsWs
    let ds := l1.takeWhile Char.isDigit
    ((l1.drop ds.length).drop 1).dropWhile isJsWs
  else l

/-- Process one paragraph unit, with `ks` the stream of `generateKey()`
results and `n` the number of keys consumed so far; returns the block(s) of
this unit and the new key counter.  The branch order is the source's:
h1, h2, h3, h4, blockquote, bullet list, numbered list, normal paragraph. -/
def processParagraph (ks : Nat → String) (n : Nat) (p : List Char) :
    List PortableTextBlock × Nat :=
  if ("# ".toList).isPrefixOf p then
    ([{ key := ks n, style := "h1", listItem := none, level := none,
        children := processBoldAndEmphasis (replaceFirstL "# ".toList p) }], n + 1)
  else if ("## ".toList).isPrefixOf p || matchPH '2' p then
    let t := if ("## ".toList).isPrefixOf p then replaceFirstL "## ".toList p else p.drop 3
    ([{ key := ks n, style := "h2", listItem := none, level := none,
        children := processBoldAndEmphasis (jsTrim t) }], n + 1)
  else if ("### ".toList).isPrefixOf p || matchPH '3' p then
    let t := if ("### ".toList).isPrefixOf p then replaceFirstL "### ".toList p else p.drop 3
    ([{ key := ks n, style := "h3", listItem := none, level := none,
        children := processBoldAndEmphasis (jsTrim t) }], n + 1)
  else if ("#### ".toList).isPrefixOf p || matchPH '4' p then
    let t := if ("#### ".toList).isPrefixOf p then replaceFirstL "#### ".toList p else p.drop 3
    ([{ key := ks n, style := "h4", listItem := none, level := none,
        children := processBoldAndEmphasis (jsTrim t) }], n + 1)
  else if ("> ".toList).isPrefixOf p || ("&gt; ".toList).isPrefixOf p then
    ([{ key := ks n, style := "blockquote", listItem := none, level := none,
        children := processBoldAndEmphasis (jsTrim (dropQuoteMark p)) }], n + 1)
  else if bulletTest p then
    let items := (List.splitOn '\n' p).filter bulletTest
    (items.enum.map (fun pr =>
      { key := ks (n + pr.1), style := "normal", listItem := some "bullet",
        level := some 1,
        children := processBoldAndEmphasis (stripBullet pr.2) }), n + items.length)
  else if numTest p then
    let items := (List.splitOn '\n' p).filter numTest
    (items.enum.map (fun pr =>
      { key := ks (n + pr.1), style := "normal", listItem := some "number",
        level := some 1,
        children := processBoldAndEmphasis (stripNum pr.2) }), n + items.length)
  else
    ([{ key := ks n, style := "normal", listItem := none, level := none,
        children := processBoldAndEmphasis p }], n + 1)

/-- Left-to-right processing of the filtered paragraph units (the source's
`.map(...)` followed by `.flat()`), threading the key counter. -/
def convertUnits (ks : Nat → String) (n : Nat) : List (List Char) → List PortableTextBlock
  | [] => []
  | p :: ps =>
      (processParagraph ks n p).1 ++ convertUnits ks (processParagraph ks n p).2 ps

/-- `markdownToPortableText`: preprocess, split into paragraph units, drop
units that are empty after trimming (`.filter(p => p.trim())`), and process
each unit into blocks. -/
def markdownToPortableText (ks : Nat → String) (markdown : List Char) :
    List PortableTextBlock :=
  convertUnits ks 0
    ((splitOnNN (cleanedMarkdown markdown)).filter (fun p => !(jsTrim p).isEmpty))

/-! ### Slug helper -/

/-- `\w`, the regex word-character class: `[A-Za-z0-9_]`. -/
def isWordChar (c : Char) : Bool :=
  (97 ≤ c.toNat && c.toNat ≤ 122) || (65 ≤ c.toNat && c.toNat ≤ 90) ||
  (48 ≤ c.toNat && c.toNat ≤ 57) || c.toNat == 95

/-- `String.prototype.toLowerCase`, modelled on the ASCII range (`A`–`Z` map
to `a`–`z`, every other character is left unchanged; the few non-ASCII
one-off case mappings are not modelled — such characters are removed by the
following `[^\w\s-]` filter either way). -/
def jsToLower (c : Char) : Char :=
  if 65 ≤ c.toNat && c.toNat ≤ 90 then Char.ofNat (c.toNat + 32) else c

/-- `.replace(/\s+/g, '-')`: each maximal whitespace run becomes one hyphen
(`prevWs` records whether the previous character was whitespace, i.e. whether
the current run already emitted its hyphen). -/
def wsToHyphGo (prevWs : Bool) : List Char → List Char
  | [] => []
  | c :: rest =>
      if isJsWs c then
        if prevWs then wsToHyphGo true rest else '-' :: wsToHyphGo true rest
      else c :: wsToHyphGo false rest

/-- The global replacement of the pattern `-+` by a single `'-'`: cap every
hyphen run at one. -/
def collapseHGo (prevHyph : Bool) : List Char → List Char
  | [] => []
  | c :: rest =>
      if c = '-' then
        if prevHyph then collapseHGo true rest else '-' :: collapseHGo true rest
      else c :: collapseHGo false rest

/-- `createSlug(title)`: lowercase, remove characters outside `[\w\s-]`,
replace whitespace runs by hyphens, collapse hyphen runs. -/
def createSlug (title : List Char) : List Char :=
  collapseHGo false
    (wsToHyphGo false
      ((title.map jsToLower).filter (fun c => isWordChar c || isJsWs c || c == '-')))

/-! ### Specification-side definitions (for comparison with the code) -/

/-- Modelled from the spec: the paragraph text with emphasis markers removed
and every other character preserved verbatim — a `**` pair is removed, a lone
`*` (one not immediately adjacent to another `*` on either side, start and
end of string treated as non-`*`) is removed, everything else is kept.
`prevStar` records whether the preceding character of the original string was
`*`. -/
def stripEmphGo (prevStar : Bool) : List Char → List Char
  | [] => []
  | '*' :: '*' :: rest => stripEmphGo true rest
  | '*' :: rest =>
      if prevStar then '*' :: stripEmphGo true rest else stripEmphGo true rest
  | c :: rest => c :: stripEmphGo false rest

/-- Modelled from the spec: a text with its `**` pairs and lone `*` markers
removed, all other characters verbatim. -/
def stripEmph (t : List Char) : List Char := stripEmphGo false t

/-- A block with its opaque `_key` identifier erased. -/
def eraseKey (b : PortableTextBlock) : PortableTextBlock := { b with key := "" }

/-- The character set claimed for `createSlug` results: lowercase ASCII
letter, digit, underscore, or hyphen. -/
def isSlugChar (c : Char) : Bool :=
  (97 ≤ c.toNat && c.toNat ≤ 122) || (48 ≤ c.toNat && c.toNat ≤ 57) ||
  c.toNat == 95 || c.toNat == 45

/-- Whether the string contains two consecutive hyphens. -/
def hasDoubleHyphen : List Char → Bool
  | c1 :: c2 :: rest => (c1 == '-' && c2 == '-') || hasDoubleHyphen (c2 :: rest)
  | _ => false

/-- A fixed key stream used to instantiate the converter on concrete
inputs. -/
def k0 : Nat → String := fun _ => ""

/-- The text(s) handed to the inline tokenizer for one paragraph unit, one
per produced block, read off the same branch chain as `processParagraph`:
the paragraph with its structural marker stripped — and additionally trimmed
of leading/trailing whitespace in the h2/h3/h4 and blockquote branches
(`text.trim()` in the source), with the list strips removing all whitespace
after the marker (`\s+`). -/
def paragraphTexts (p : List Char) : List (List Char) :=
  if ("# ".toList).isPrefixOf p then
    [replaceFirstL "# ".toList p]
  else if ("## ".toList).isPrefixOf p || matchPH '2' p then
    [jsTrim (if ("## ".toList).isPrefixOf p then replaceFirstL "## ".toList p else p.drop 3)]
  else if ("### ".toList).isPrefixOf p || matchPH '3' p then
    [jsTrim (if ("### ".toList).isPrefixOf p then replaceFirstL "### ".toList p else p.drop 3)]
  else if ("#### ".toList).isPrefixOf p || matchPH '4' p then
    [jsTrim (if ("#### ".toList).isPrefixOf p then replaceFirstL "#### ".toList p else p.drop 3)]
  else if ("> ".toList).isPrefixOf p || ("&gt; ".toList).isPrefixOf p then
    [jsTrim (dropQuoteMark p)]
  else if bulletTest p then
    ((List.splitOn '\n' p).filter bulletTest).map stripBullet
  else if numTest p then
    ((List.splitOn '\n' p).filter numTest).map stripNum
  else [p]

/-- The block produced for the paragraph `"## ab "` (note the trailing
space of the input is gone). -/
def exBlockH2ab : PortableTextBlock :=
  { key := "", style := "h2", listItem := none, level := none,
    children := [{ text := "ab".toList, marks := some [] }] }

/-- The block produced for the paragraph `"x"`. -/
def exBlockX : PortableTextBlock :=
  { key := "", style := "normal", listItem := none, level := none,
    children := [{ text := "x".toList, marks := some [] }] }

/-- Whether some two consecutive spans of the list carry an identical marks
set. -/
def hasConsecSameMarks : List PortableTextSpan → Bool
  | s1 :: s2 :: rest => (s1.marks == s2.marks) || hasConsecSameMarks (s2 :: rest)
  | _ => false

/-! ## Helper lemmas -/

theorem spansText_flushBuf (buf : List Char) (b i : Bool) :
    spansText (flushBuf buf b i) = buf := by
  by_cases h : buf.isEmpty <;>
    simp_all [flushBuf, spansText, mkSpan, List.isEmpty_iff]

theorem spansText_append (s1 s2 : List PortableTextSpan) :
    spansText (s1 ++ s2) = spansText s1 ++ spansText s2 := by
  simp [spansText]

/-- The scan always emits, as span texts, exactly the input minus the toggle
markers it consumed. -/
theorem spansText_pbeGo (prevStar isBold isItalic : Bool) (buf t : List Char) :
    spansText (pbeGo prevStar isBold isItalic buf t) = buf ++ stripEmphGo prevStar t := by
  induction prevStar, isBold, isItalic, buf, t using pbeGo.induct with
  | case1 ps b i buf =>
      simp [pbeGo, stripEmphGo, spansText_flushBuf]
  | case2 ps b i buf rest ih =>
      simp [pbeGo, stripEmphGo, spansText_append, spansText_flushBuf, ih]
  | case3 b i buf rest h ih =>
      simp_all [pbeGo, stripEmphGo, spansText_append, spansText_flushBuf]
  | case4 ps b i buf rest h hps ih =>
      simp_all [pbeGo, stripEmphGo, spansText_append, spansText_flushBuf]
  | case5 ps b i buf c rest h1 h2 ih =>
      simp_all [pbeGo, stripEmphGo, spansText_append, spansText_flushBuf]

theorem spansText_processBoldAndEmphasis (t : List Char) :
    spansText (processBoldAndEmphasis t) = stripEmph t := by
  have h := spansText_pbeGo false false false [] t
  rw [List.nil_append] at h
  rw [processBoldAndEmphasis]
  split
  · exact h
  · next hlen =>
      have hnil : pbeGo false false false [] t = [] := by
        cases heq : pbeGo false false false [] t with
        | nil => rfl
        | cons x xs => rw [heq] at hlen; simp at hlen
      rw [hnil] at h
      simp only [spansText, stripEmph, List.map, List.flatten] at h ⊢
      simp at h ⊢
      exact h

theorem one_le_length_processBoldAndEmphasis (t : List Char) :
    1 ≤ (processBoldAndEmphasis t).length := by
  rw [processBoldAndEmphasis]
  split
  · omega
  · simp

theorem map_snd_enumFrom {α β : Type} (f : α → β) :
    ∀ (l : List α) (n : Nat), (List.enumFrom n l).map (fun pr => f pr.2) = l.map f := by
  intro l
  induction l with
  | nil => intro n; rfl
  | cons x xs ih => intro n; simp only [List.enumFrom, List.map_cons, ih]

/-- The span texts of the blocks of one paragraph unit are exactly the
unit's tokenized texts with emphasis markers removed. -/
theorem spansTexts_processParagraph (ks : Nat → String) (n : Nat) (p : List Char) :
    ((processParagraph ks n p).1).map (fun b => spansText b.children)
      = (paragraphTexts p).map stripEmph := by
  rw [processParagraph, paragraphTexts]
  split_ifs <;>
    simp [spansText_processBoldAndEmphasis, List.map_map, Function.comp_def,
      List.enum] <;>
    first
      | exact map_snd_enumFrom (fun item => stripEmph (stripBullet item)) _ 0
      | exact map_snd_enumFrom (fun item => stripEmph (stripNum item)) _ 0

theorem spansTexts_convertUnits :
    ∀ (us : List (List Char)) (ks : Nat → String) (n : Nat),
      (convertUnits ks n us).map (fun b => spansText b.children)
        = (us.map (fun p => (paragraphTexts p).map stripEmph)).flatten := by
  intro us
  induction us with
  | nil => intro ks n; rfl
  | cons p ps ih =>
      intro ks n
      rw [convertUnits, List.map_append, spansTexts_processParagraph,
        List.map_cons, List.flatten_cons, ih]

/-- Every block built by the per-paragraph step has tokenizer output as its
children. -/
theorem children_processParagraph (ks : Nat → String) (n : Nat) (p : List Char)
    (b : PortableTextBlock) (hb : b ∈ (processParagraph ks n p).1) :
    ∃ u, b.children = processBoldAndEmphasis u := by
  rw [processParagraph] at hb
  split_ifs at hb <;> simp at hb <;>
    first
      | exact ⟨_, by rw [hb]⟩
      | (obtain ⟨pr, hpr, hmem, hEq⟩ := hb; exact ⟨_, by rw [← hEq]⟩)

theorem children_convertUnits :
    ∀ (us : List (List Char)) (ks : Nat → String) (n : Nat) (b : PortableTextBlock),
      b ∈ convertUnits ks n us → ∃ u, b.children = processBoldAndEmphasis u := by
  intro us
  induction us with
  | nil => intro ks n b hb; simp [convertUnits] at hb
  | cons p ps ih =>
      intro ks n b hb
      rw [convertUnits] at hb
      rcases List.mem_append.1 hb with h | h
      · exact children_processParagraph ks n p b h
      · exact ih ks _ b h

theorem children_markdownToPortableText (ks : Nat → String) (s : List Char)
    (b : PortableTextBlock) (hb : b ∈ markdownToPortableText ks s) :
    ∃ u, b.children = processBoldAndEmphasis u := by
  exact children_convertUnits _ ks 0 b hb

/-- The block skeleton of one paragraph unit does not depend on the random
key stream or on the key counter. -/
theorem map_eraseKey_processParagraph (p : List Char) (ks1 ks2 : Nat → String)
    (n1 n2 : Nat) :
    ((processParagraph ks1 n1 p).1).map eraseKey
      = ((processParagraph ks2 n2 p).1).map eraseKey := by
  rw [processParagraph, processParagraph]
  split_ifs <;> simp [eraseKey, List.map_map, Function.comp]

theorem map_eraseKey_convertUnits :
    ∀ (us : List (List Char)) (ks1 ks2 : Nat → String) (n1 n2 : Nat),
      (convertUnits ks1 n1 us).map eraseKey = (convertUnits ks2 n2 us).map eraseKey := by
  intro us
  induction us with
  | nil => intro ks1 ks2 n1 n2; rfl
  | cons p ps ih =>
      intro ks1 ks2 n1 n2
      rw [convertUnits, convertUnits, List.map_append, List.map_append]
      exact congrArg₂ (· ++ ·) (map_eraseKey_processParagraph p ks1 ks2 n1 n2)
        (ih ks1 ks2 _ _)

theorem char_toNat_ofNat (n : Nat) (h : n < 55296) : (Char.ofNat n).toNat = n := by
  have hv : n.isValidChar := Or.inl h
  simp [Char.ofNat, hv, Char.ofNatAux, Char.toNat, UInt32.toNat, BitVec.toNat_ofNatLt]

/-- Lowercasing never produces an ASCII uppercase letter. -/
theorem jsToLower_not_upper (c : Char) :
    ¬(65 ≤ (jsToLower c).toNat ∧ (jsToLower c).toNat ≤ 90) := by
  rw [jsToLower]
  split
  · next h =>
      simp only [Bool.and_eq_true, decide_eq_true_eq] at h
      have h' : c.toNat + 32 < 55296 := by omega
      rw [char_toNat_ofNat _ h']
      omega
  · next h =>
      simp only [Bool.and_eq_true, decide_eq_true_eq, not_and, not_le] at h
      intro hc
      exact absurd (h hc.1) (by omega)

/-- Characters emitted by the whitespace-to-hyphen pass are hyphens or
non-whitespace input characters. -/
theorem mem_wsToHyphGo :
    ∀ (l : List Char) (pw : Bool) (c : Char),
      c ∈ wsToHyphGo pw l → c = '-' ∨ (c ∈ l ∧ isJsWs c = false) := by
  intro l
  induction l with
  | nil => intro pw c hc; simp [wsToHyphGo] at hc
  | cons x rest ih =>
      intro pw c hc
      rw [wsToHyphGo] at hc
      by_cases hx : isJsWs x
      · rw [if_pos hx] at hc
        have hstep : c = '-' ∨ c ∈ wsToHyphGo true rest := by
          cases pw with
          | true => exact Or.inr (by simpa using hc)
          | false => simpa using hc
        rcases hstep with h | h
        · exact Or.inl h
        · rcases ih true c h with h' | ⟨h1, h2⟩
          · exact Or.inl h'
          · exact Or.inr ⟨List.mem_cons_of_mem x h1, h2⟩
      · rw [if_neg hx] at hc
        rcases List.mem_cons.1 hc with h | h
        · rw [h]
          exact Or.inr ⟨List.mem_cons_self x rest, by simpa using hx⟩
        · rcases ih false c h with h' | ⟨h1, h2⟩
          · exact Or.inl h'
          · exact Or.inr ⟨List.mem_cons_of_mem x h1, h2⟩

/-- Characters emitted by the hyphen-collapsing pass are hyphens or input
characters. -/
theorem mem_collapseHGo :
    ∀ (l : List Char) (b : Bool) (c : Char),
      c ∈ collapseHGo b l → c = '-' ∨ c ∈ l := by
  intro l
  induction l with
  | nil => intro b c hc; simp [collapseHGo] at hc
  | cons x rest ih =>
      intro b c hc
      rw [collapseHGo] at hc
      by_cases hx : x = '-'
      · rw [if_pos hx] at hc
        have hstep : c = '-' ∨ c ∈ collapseHGo true rest := by
          cases b with
          | true => exact Or.inr (by simpa using hc)
          | false => simpa using hc
        rcases hstep with h | h
        · exact Or.inl h
        · rcases ih true c h with h' | h'
          · exact Or.inl h'
          · exact Or.inr (List.mem_cons_of_mem x h')
      · rw [if_neg hx] at hc
        rcases List.mem_cons.1 hc with h | h
        · exact Or.inr (h ▸ List.mem_cons_self x rest)
        · rcases ih false c h with h' | h'
          · exact Or.inl h'
          · exact Or.inr (List.mem_cons_of_mem x h')

/-- After a hyphen has just been emitted, the collapsing pass never emits a
hyphen first. -/
theorem collapseHGo_true_ne_hyphen :
    ∀ (l rest : List Char), collapseHGo true l ≠ '-' :: rest := by
  intro l
  induction l with
  | nil => intro rest h; simp [collapseHGo] at h
  | cons x xs ih =>
      intro rest h
      rw [collapseHGo] at h
      by_cases hx : x = '-'
      · rw [if_pos hx, if_pos rfl] at h
        exact ih rest h
      · rw [if_neg hx] at h
        exact hx (List.cons_eq_cons.1 h).1

/-- The hyphen-collapsing pass never emits two consecutive hyphens. -/
theorem hasDoubleHyphen_collapseHGo :
    ∀ (l : List Char) (b : Bool), hasDoubleHyphen (collapseHGo b l) = false := by
  intro l
  induction l with
  | nil => intro b; rfl
  | cons x xs ih =>
      intro b
      rw [collapseHGo]
      by_cases hx : x = '-'
      · rw [if_pos hx]
        cases b with
        | true =>
            rw [if_pos rfl]
            exact ih true
        | false =>
            rw [if_neg Bool.false_ne_true]
            cases heq : collapseHGo true xs with
            | nil => rfl
            | cons y ys =>
                have hy : y ≠ '-' := by
                  intro hy
                  exact collapseHGo_true_ne_hyphen xs ys (by rw [heq, hy])
                have hxs := ih true
                rw [heq] at hxs
                simp [hasDoubleHyphen, hy, hxs]
      · rw [if_neg hx]
        cases heq : collapseHGo false xs with
        | nil => rfl
        | cons y ys =>
            have hxs := ih false
            rw [heq] at hxs
            simp [hasDoubleHyphen, hx, hxs]

/-- Scanning marker-free text only accumulates it into the buffer. -/
theorem pbeGo_starFree (prevStar isBold isItalic : Bool) (buf t : List Char)
    (hfree : '*' ∉ t) :
    pbeGo prevStar isBold isItalic buf t = flushBuf (buf ++ t) isBold isItalic := by
  induction prevStar, isBold, isItalic, buf, t using pbeGo.induct with
  | case1 ps b i buf => simp [pbeGo]
  | case2 ps b i buf rest ih => simp at hfree
  | case3 b i buf rest h ih => simp at hfree
  | case4 ps b i buf rest h hps ih => simp at hfree
  | case5 ps b i buf c rest h1 h2 ih =>
      simp only [List.mem_cons, not_or] at hfree
      simp_all [pbeGo]

/-! ## Claims -/

/-- C1: Totality of the converter — for every input string (including the
empty string, whitespace-only strings, and strings with unmatched `*`),
`markdownToPortableText` returns an ordered, possibly empty, sequence of
blocks; it is a total function, so it terminates and cannot throw. -/
theorem spec_C1 :
    (∀ (ks : Nat → String) (s : List Char),
      ∃ bs : List PortableTextBlock, markdownToPortableText ks s = bs) ∧
    markdownToPortableText k0 "".toList = [] ∧
    markdownToPortableText k0 "  \n ".toList = [] ∧
    markdownToPortableText k0 "*x".toList =
      [{ key := "", style := "normal", listItem := none, level := none,
         children := [{ text := "x".toList, marks := some ["em"] }] }] :=
  ⟨fun ks s => ⟨markdownToPortableText ks s, rfl⟩, by decide, by decide, by decide⟩

/-- C2, counterexample: on input `"## ab "` the converter produces a single
h2 block whose span concatenation is `"ab"`, while the paragraph text with
only the structural marker `"## "` removed (it contains no emphasis markers)
is `"ab "` — the trailing space, a non-marker character, is dropped by the
`text.trim()` of the h2 branch, refuting "every other character of the
paragraph preserved verbatim". -/
theorem spec_C2_cex :
    markdownToPortableText k0 "## ab ".toList = [exBlockH2ab] ∧
    spansText exBlockH2ab.children = "ab".toList ∧
    stripEmph (replaceFirstL "## ".toList "## ab ".toList) = "ab ".toList ∧
    spansText exBlockH2ab.children
      ≠ stripEmph (replaceFirstL "## ".toList "## ab ".toList) := by
  decide

/-- C2, amended: for every block produced, concatenating the `text` of its
spans in order reconstructs the block's tokenized paragraph text — the
paragraph with its structural marker stripped, additionally trimmed of
leading/trailing whitespace in the h2/h3/h4 and blockquote branches, with
the list strips also removing all whitespace after the marker
(`paragraphTexts`) — with emphasis markers (`**` pairs and lone `*`) removed
and every other character of that text preserved verbatim (`stripEmph`):
blockwise for the tokenizer, per paragraph unit, and for the whole
converter output. -/
theorem spec_C2 :
    (∀ t : List Char, spansText (processBoldAndEmphasis t) = stripEmph t) ∧
    (∀ (ks : Nat → String) (n : Nat) (p : List Char),
      ((processParagraph ks n p).1).map (fun b => spansText b.children)
        = (paragraphTexts p).map stripEmph) ∧
    (∀ (ks : Nat → String) (s : List Char),
      (markdownToPortableText ks s).map (fun b => spansText b.children)
        = (((splitOnNN (cleanedMarkdown s)).filter
              (fun p => !(jsTrim p).isEmpty)).map
            (fun p => (paragraphTexts p).map stripEmph)).flatten) := by
  refine ⟨spansText_processBoldAndEmphasis, spansTexts_processParagraph, ?_⟩
  intro ks s
  rw [markdownToPortableText]
  exact spansTexts_convertUnits _ ks 0

/-- C3: No-empty-children invariant — every block produced by the converter
has at least one span, and when the scan produces zero spans the tokenizer
emits exactly one span with empty text and no marks. -/
theorem spec_C3 :
    (∀ (ks : Nat → String) (s : List Char) (b : PortableTextBlock),
      b ∈ markdownToPortableText ks s → 1 ≤ b.children.length) ∧
    (∀ t : List Char, pbeGo false false false [] t = [] →
      processBoldAndEmphasis t = [{ text := [], marks := none }]) := by
  constructor
  · intro ks s b hb
    obtain ⟨u, hu⟩ := children_markdownToPortableText ks s b hb
    rw [hu]
    exact one_le_length_processBoldAndEmphasis u
  · intro t ht
    rw [processBoldAndEmphasis, ht]
    simp

theorem spec_C3_witness :
    (exBlockX ∈ markdownToPortableText k0 "x".toList ∧
      1 ≤ exBlockX.children.length) ∧
    (pbeGo false false false [] [] = ([] : List PortableTextSpan) ∧
      processBoldAndEmphasis [] = [{ text := [], marks := none }]) :=
  ⟨⟨by decide, spec_C3.1 k0 "x".toList exBlockX (by decide)⟩,
   ⟨by decide, spec_C3.2 [] (by decide)⟩⟩

/-- C4, counterexample: on input `"a****b"` the converter produces a block
whose two consecutive spans carry the identical marks set `[]` (the two
adjacent bold toggles cancel with no text between them), refuting the claim
that no two consecutive spans ever share an identical marks set. -/
theorem spec_C4_cex :
    ¬ (∀ b ∈ markdownToPortableText k0 "a****b".toList,
        hasConsecSameMarks b.children = false) := by
  decide

/-- C4, amended: the tokenizer closes a span at each style-toggle boundary
and performs no post-hoc merge pass, so consecutive spans of a block may
carry an identical marks set when the toggles between them cancel with no
intervening text — on `"a****b"` it emits two separate unmerged spans
`"a"` and `"b"`, both with marks `[]`. -/
theorem spec_C4 :
    markdownToPortableText k0 "a****b".toList =
      [{ key := "", style := "normal", listItem := none, level := none,
         children := [{ text := "a".toList, marks := some [] },
                      { text := "b".toList, marks := some [] }] }] := by
  decide

/-- C5: Bold/italic toggling — `"a **b** c"` yields exactly the three spans
`"a "` (no marks), `"b"` (bold only), `" c"` (no marks); and in general a
flushed span carries the bold tag iff the bold flag was set at flush time and
the italic tag iff the italic flag was set. -/
theorem spec_C5 :
    processBoldAndEmphasis "a **b** c".toList =
      [{ text := "a ".toList, marks := some [] },
       { text := "b".toList, marks := some ["strong"] },
       { text := " c".toList, marks := some [] }] ∧
    (∀ isBold isItalic : Bool,
      ("strong" ∈ spanMarks isBold isItalic ↔ isBold = true) ∧
      ("em" ∈ spanMarks isBold isItalic ↔ isItalic = true)) := by
  decide

/-- C6: Unmatched marker behaviour — `"**unterminated"` yields the single
span `"unterminated"` with the bold mark; in general an unmatched `**`
(resp. a lone `*`) leaves the bold (resp. italic) toggle active through the
end of the scan of any following marker-free text, and no error occurs. -/
theorem spec_C6 :
    processBoldAndEmphasis "**unterminated".toList =
      [{ text := "unterminated".toList, marks := some ["strong"] }] ∧
    (∀ t : List Char, '*' ∉ t → t ≠ [] →
      processBoldAndEmphasis ('*' :: '*' :: t) = [{ text := t, marks := some ["strong"] }]) ∧
    (∀ t : List Char, '*' ∉ t → t ≠ [] →
      processBoldAndEmphasis ('*' :: t) = [{ text := t, marks := some ["em"] }]) := by
  refine ⟨by decide, ?_, ?_⟩
  · intro t hfree hne
    have h1 : pbeGo false false false [] ('*' :: '*' :: t)
        = flushBuf [] false false ++ pbeGo true true false [] t := rfl
    rw [processBoldAndEmphasis, h1, pbeGo_starFree true true false [] t hfree]
    simp [flushBuf, hne, mkSpan, spanMarks, List.isEmpty_iff]
  · intro t hfree hne
    cases t with
    | nil => exact absurd rfl hne
    | cons c ts =>
        have hc : c ≠ '*' := fun h => hfree (by rw [h]; exact List.mem_cons_self '*' ts)
        have h1 : pbeGo false false false [] ('*' :: c :: ts)
            = flushBuf [] false false ++ pbeGo true false true [] (c :: ts) := by
          simp [pbeGo, hc]
        rw [processBoldAndEmphasis, h1,
          pbeGo_starFree true false true [] (c :: ts) hfree]
        simp [flushBuf, mkSpan, spanMarks, List.isEmpty_iff]

theorem spec_C6_witness :
    ('*' ∉ "unterminated".toList ∧ "unterminated".toList ≠ [] ∧
      processBoldAndEmphasis ('*' :: '*' :: "unterminated".toList) =
        [{ text := "unterminated".toList, marks := some ["strong"] }]) ∧
    ('*' ∉ "x".toList ∧ "x".toList ≠ [] ∧
      processBoldAndEmphasis ('*' :: "x".toList) =
        [{ text := "x".toList, marks := some ["em"] }]) :=
  ⟨⟨by decide, by decide, spec_C6.2.1 "unterminated".toList (by decide) (by decide)⟩,
   ⟨by decide, by decide, spec_C6.2.2 "x".toList (by decide) (by decide)⟩⟩

/-- C7: List expansion and lossy drop — the paragraph unit
`"- one\n- two\n- three"` yields exactly three blocks, each a bullet list
item of level 1 with its marker prefix stripped; and in a unit whose first
line matches the bullet pattern, lines not matching the list pattern (here
`"skip me"`) produce no block at all. -/
theorem spec_C7 :
    markdownToPortableText k0 "- one\n- two\n- three".toList =
      [{ key := "", style := "normal", listItem := some "bullet", level := some 1,
         children := [{ text := "one".toList, marks := some [] }] },
       { key := "", style := "normal", listItem := some "bullet", level := some 1,
         children := [{ text := "two".toList, marks := some [] }] },
       { key := "", style := "normal", listItem := some "bullet", level := some 1,
         children := [{ text := "three".toList, marks := some [] }] }] ∧
    markdownToPortableText k0 "- one\nskip me\n- three".toList =
      [{ key := "", style := "normal", listItem := some "bullet", level := some 1,
         children := [{ text := "one".toList, marks := some [] }] },
       { key := "", style := "normal", listItem := some "bullet", level := some 1,
         children := [{ text := "three".toList, marks := some [] }] }] := by
  decide

/-- C8: Pseudo-heading rewrite — `"**H2:Benefits**"` is preprocessed to the
bare pseudo-heading line surrounded by blank lines, and the full conversion
yields a single heading2 block whose span text is exactly `"Benefits"`. -/
theorem spec_C8 :
    cleanedMarkdown "**H2:Benefits**".toList = "\n\nH2:Benefits\n\n".toList ∧
    markdownToPortableText k0 "**H2:Benefits**".toList =
      [{ key := "", style := "h2", listItem := none, level := none,
         children := [{ text := "Benefits".toList, marks := some [] }] }] := by
  decide

/-- C9: Determinism modulo identifiers — two runs of the converter on the
same input under any two streams of random key choices agree on everything
except the `_key` fields: erasing the keys, the outputs are equal (same
number of blocks, same styles, list attributes, and spans). -/
theorem spec_C9 (ks1 ks2 : Nat → String) (s : List Char) :
    (markdownToPortableText ks1 s).map eraseKey
      = (markdownToPortableText ks2 s).map eraseKey := by
  rw [markdownToPortableText, markdownToPortableText]
  exact map_eraseKey_convertUnits _ ks1 ks2 0 0

/-- C10: Slug character-set postcondition — every character of
`createSlug title` is a lowercase ASCII letter, a digit, an underscore, or a
hyphen (in particular no space and no uppercase letter occurs), and the
result never contains two consecutive hyphens. -/
theorem spec_C10 (t : List Char) :
    (createSlug t).all isSlugChar = true ∧
    hasDoubleHyphen (createSlug t) = false := by
  constructor
  · rw [List.all_eq_true]
    intro c hc
    rw [createSlug] at hc
    rcases mem_collapseHGo _ _ _ hc with h | h
    · rw [h]; rfl
    · rcases mem_wsToHyphGo _ _ _ h with h' | ⟨h1, h2⟩
      · rw [h']; rfl
      · rw [List.mem_filter] at h1
        obtain ⟨hmap, hkeep⟩ := h1
        rw [List.mem_map] at hmap
        obtain ⟨c0, _, hc0⟩ := hmap
        subst hc0
        have hnu := jsToLower_not_upper c0
        simp only [isWordChar, isSlugChar, Bool.or_eq_true, Bool.and_eq_true,
          decide_eq_true_eq, beq_iff_eq] at hkeep ⊢
        rcases hkeep with (hw | hws) | hd
        · omega
        · rw [hws] at h2
          exact absurd h2 (by simp)
        · have h45 : (jsToLower c0).toNat = 45 := by rw [hd]; rfl
          omega
  · rw [createSlug]
    exact hasDoubleHyphen_collapseHGo _ false

end Noveli
